import Mathlib

/-!
Shallow embedding of the compose-export orchestrator of `backend/main.py`:
the per-job state (the `ComposeExportJob` dataclass, lines 968-997), the
ordered frame buffer and its drain loop (`ffmpeg_export_frame`, lines
1394-1444), the finalize / mux / fallback path (`ffmpeg_export_finalize`,
lines 1471-1589), the progress endpoint (lines 1592-1610), download
(lines 1613-1640), cancel (lines 1643-1660), job creation
(`ffmpeg_export_compose`, lines 1268-1371) and the registry reaper
(`_cleanup_old_jobs`, lines 1000-1008, `_cleanup_job_files`, 1011-1018).

Modelling conventions: raw byte strings are `List Nat`; the Python dict
used as the frame buffer is an association list with the dict's lookup /
assignment / pop semantics (keys are unique in every state the code can
reach, since entries are only added by assignment); contents of the job's
private artifact files (video-only artifact, final output, audio artifact)
are carried on the job record as `Option` fields, `none` meaning the file
does not exist; the bytes fed to the encoder subprocess's stdin are
recorded in the `written` log, in the order the code writes them; the
external behaviour that `finalize` observes (exit codes, timeouts, the
bytes a successful mux run writes) is an explicit `FinalizeEnv` argument.
-/

abbrev Bytes := List Nat

/-- Lookup in an association list, mirroring `d[k]` / `k in d`. -/
def alistLookup {α β : Type} [DecidableEq α] (k : α) : List (α × β) → Option β
  | [] => none
  | (k₁, v) :: rest => if k₁ = k then some v else alistLookup k rest

/-- Assignment `d[k] = v`: replace the entry for `k` if present, else add it. -/
def alistInsert {α β : Type} [DecidableEq α] (k : α) (v : β) : List (α × β) → List (α × β)
  | [] => [(k, v)]
  | (k₁, v₁) :: rest =>
    if k₁ = k then (k, v) :: rest else (k₁, v₁) :: alistInsert k v rest

/-- Removal `d.pop(k)`: drop the entry for `k` (the first one, which is the
only one when keys are unique). -/
def alistErase {α β : Type} [DecidableEq α] (k : α) : List (α × β) → List (α × β)
  | [] => []
  | (k₁, v₁) :: rest =>
    if k₁ = k then rest else (k₁, v₁) :: alistErase k rest

/-- The keys of an association list. -/
def alistKeys {α β : Type} (l : List (α × β)) : List α := l.map Prod.fst

/-- Job lifecycle status, the string values of `ComposeExportJob.status`
(main.py line 985). The unused `"ready"` value from the comment is omitted:
no code path assigns it. -/
inductive Status : Type
  | encoding
  | finalizing
  | done
  | error
  | cancelled
deriving DecidableEq

/-- Terminal statuses, the tuple `("done", "error", "cancelled")` used by
`_cleanup_old_jobs` (main.py line 1004). -/
def Status.isTerminal : Status → Bool
  | .done => true
  | .error => true
  | .cancelled => true
  | _ => false

/-- The `ComposeExportJob` dataclass (main.py lines 968-992), together with
the per-job observables the handlers interact with: the contents of the
job's artifact files and the log of bytes written to the encoder's stdin.

Field mapping to the dataclass: `width`/`height`/`fps`/`totalFrames`/
`codec`/`quality`/`container`/`videoBitrate`/`audioBitrate` are the
geometry and encoding selection; `framesReceived`, `status`, `errMsg`
(`error` in the source), `createdAt`, `frameBuffer`, `nextFrameToWrite`
and `encoderFps` are the bookkeeping fields.  The `process` handle is
modelled by `hasProcess` (the handle is not `None`), `stdinAvail`
(`process.stdin` is open and not `None`), `writeOk` (writes to stdin
currently succeed, i.e. the encoder has not died) and `returncode`.
`written` is the ordered log of `(frame index, bytes)` pairs passed to
`process.stdin.write`.  `videoOnly`, `output` and `audioData` are the
contents of the video-only artifact, the final output artifact and the
saved audio artifact (`none` = the file does not exist; `audio_path` is
set exactly when an audio artifact was uploaded).  The `lock` field is a
mutual-exclusion token with no sequential content and is not modelled. -/
structure ComposeJob : Type where
  jobId : String
  width : Nat
  height : Nat
  fps : Nat
  totalFrames : Int
  codec : String
  quality : String
  container : String
  videoBitrate : Option Int
  audioBitrate : Option Int
  hasProcess : Bool
  stdinAvail : Bool
  writeOk : Bool
  returncode : Option Int
  framesReceived : Nat
  status : Status
  errMsg : Option String
  createdAt : Int
  frameBuffer : List (Nat × Bytes)
  nextFrameToWrite : Nat
  encoderFps : ℚ
  written : List (Nat × Bytes)
  videoOnly : Option Bytes
  output : Option Bytes
  audioData : Option Bytes
deriving DecidableEq

/-- Result of `ffmpeg_export_frame` (main.py lines 1394-1444): either the
success payload `{"received": True, "framesReceived": n}` or one of the
error responses, in the order the code checks them.  Base64 decoding is
below the modelling line (payloads arrive already decoded), so the
`Invalid base64 data` branch does not appear. -/
inductive SubmitOutcome : Type
  | accepted (framesReceived : Nat)
  | invalidJob
  | badState (st : Status)
  | noData
  | noProcess
  | sizeMismatch (got expected : Nat)
  | writeFailed
deriving DecidableEq

/-- One pass of the `while job.next_frame_to_write in job.frame_buffer`
drain loop of `ffmpeg_export_frame` (main.py lines 1433-1442), written
with structural fuel.  Each iteration of the source loop pops one buffer
entry, so the loop runs at most `frame_buffer.length` times; the fuel only
bounds the recursion depth and `drainBuffer` below always supplies enough.
A failing `stdin.write` sets the job to `error` and returns the 500
response without advancing `next_frame_to_write` (the popped frame is
lost).  The returned flag is `true` when no write failed. -/
def drainAux : Nat → ComposeJob → ComposeJob × Bool
  | 0, job => (job, true)
  | fuel + 1, job =>
    match alistLookup job.nextFrameToWrite job.frameBuffer with
    | none => (job, true)
    | some d =>
      let buf' := alistErase job.nextFrameToWrite job.frameBuffer
      if job.writeOk then
        drainAux fuel
          { job with
            frameBuffer := buf'
            written := job.written ++ [(job.nextFrameToWrite, d)]
            nextFrameToWrite := job.nextFrameToWrite + 1 }
      else
        ({ job with
            frameBuffer := buf'
            status := Status.error
            errMsg := some "Failed to write frame" }, false)

/-- The drain loop of `ffmpeg_export_frame` (main.py lines 1433-1442). -/
def drainBuffer (job : ComposeJob) : ComposeJob × Bool :=
  drainAux job.frameBuffer.length job

/-- `ffmpeg_export_frame` (main.py lines 1394-1444) on a job that exists
in the registry: the guard chain (status must be `encoding`, frame data
must be present — `if not data_b64`, modelled as a nonempty payload —
the process and its stdin must be available, the decoded payload must be
exactly `width * height * 4` bytes), then, under the job lock, store the
payload in the frame buffer keyed by index, increment `frames_received`,
and drain all contiguously available frames to stdin. -/
def submitFrame (job : ComposeJob) (frameIndex : Nat) (dat : Bytes) :
    SubmitOutcome × ComposeJob :=
  if job.status ≠ Status.encoding then (.badState job.status, job)
  else if dat = [] then (.noData, job)
  else if ¬ (job.hasProcess = true ∧ job.stdinAvail = true) then (.noProcess, job)
  else if dat.length ≠ job.width * job.height * 4 then
    (.sizeMismatch dat.length (job.width * job.height * 4), job)
  else
    let job1 :=
      { job with
        frameBuffer := alistInsert frameIndex dat job.frameBuffer
        framesReceived := job.framesReceived + 1 }
    let r := drainBuffer job1
    if r.2 then (.accepted r.1.framesReceived, r.1) else (.writeFailed, r.1)

/-- One pass of the flush loop of `ffmpeg_export_finalize` (main.py lines
1488-1496), with structural fuel exactly as in `drainAux`.  Unlike the
submit-path drain, a write is attempted only when the process and its
stdin are present, any write exception is swallowed, and
`next_frame_to_write` is always advanced. -/
def flushAux : Nat → ComposeJob → ComposeJob
  | 0, job => job
  | fuel + 1, job =>
    match alistLookup job.nextFrameToWrite job.frameBuffer with
    | none => job
    | some d =>
      let wrote := job.hasProcess && job.stdinAvail && job.writeOk
      flushAux fuel
        { job with
          frameBuffer := alistErase job.nextFrameToWrite job.frameBuffer
          written :=
            if wrote then job.written ++ [(job.nextFrameToWrite, d)] else job.written
          nextFrameToWrite := job.nextFrameToWrite + 1 }

/-- The flush loop of `ffmpeg_export_finalize` (main.py lines 1488-1496). -/
def flushBuffer (job : ComposeJob) : ComposeJob :=
  flushAux job.frameBuffer.length job

/-- Result of `ffmpeg_export_finalize` (main.py lines 1471-1589). -/
inductive FinalizeOutcome : Type
  | invalidJob
  | badState (st : Status)
  | waitTimeout
  | encoderFailed
  | ok (fileSize : Nat)
deriving DecidableEq

/-- The behaviour of the external processes that `ffmpeg_export_finalize`
observes: whether the 120 s wait for the encoder timed out, the encoder's
exit code, the mux subprocess's exit code, and the bytes a successful mux
run leaves at `output_path`. -/
structure FinalizeEnv : Type where
  waitTimedOut : Bool
  exitCode : Int
  muxExitCode : Int
  muxedBytes : Bytes
deriving DecidableEq

/-- `ffmpeg_export_finalize` (main.py lines 1471-1589) on a job that
exists in the registry: reject unless status is `encoding`; set status to
`finalizing`; flush the remaining contiguous frames; close stdin; await
the encoder (timeout → `error`, non-zero exit → `error`); then, if an
audio artifact exists, run the mux pass — on non-zero mux exit fall back
to moving the video-only artifact to the final output, on success the
muxed bytes become the output and the video-only artifact is deleted —
otherwise move the video-only artifact to the final output; finally
report the output file's size (0 when the file does not exist) and set
status to `done`.  `finalizeArtifacts` is the audio-mux / fallback / move
stage (main.py lines 1519-1574); `finalizeJob` is the whole handler. -/
def finalizeArtifacts (j3 : ComposeJob) (env : FinalizeEnv) : ComposeJob :=
  if j3.audioData.isSome then
    if env.muxExitCode ≠ 0 then
      match j3.videoOnly with
      | some v => { j3 with output := some v, videoOnly := none }
      | none => j3
    else
      { j3 with output := some env.muxedBytes, videoOnly := none }
  else
    match j3.videoOnly with
    | some v => { j3 with output := some v, videoOnly := none }
    | none => j3

def finalizeJob (job : ComposeJob) (env : FinalizeEnv) :
    FinalizeOutcome × ComposeJob :=
  if job.status ≠ Status.encoding then (.badState job.status, job)
  else
    let j1 := flushBuffer { job with status := Status.finalizing }
    let j2 := { j1 with stdinAvail := false }
    if env.waitTimedOut then
      (.waitTimeout,
        { j2 with status := Status.error, errMsg := some "FFmpeg timeout (120s)" })
    else
      let j3 := { j2 with returncode := some env.exitCode }
      if env.exitCode ≠ 0 then
        (.encoderFailed,
          { j3 with
            status := Status.error
            errMsg := some "FFmpeg exited with a nonzero code" })
      else
        let j4 := finalizeArtifacts j3 env
        let fileSize := match j4.output with | some b => b.length | none => 0
        (.ok fileSize, { j4 with status := Status.done })

/-- Result of `ffmpeg_export_cancel` (main.py lines 1643-1660). -/
inductive CancelOutcome : Type
  | invalidJob
  | ok
deriving DecidableEq

/-- `ffmpeg_export_cancel` (main.py lines 1643-1660) on a job that exists
in the registry: terminate the process if it is still running (a signal to
the external process, with no effect on the job record), set status to
`cancelled` unconditionally, and delete the job's artifact files via
`_cleanup_job_files` (which unlinks `output_path` and `audio_path`; the
video-only artifact is not touched).  Always returns success. -/
def cancelJob (job : ComposeJob) : CancelOutcome × ComposeJob :=
  (.ok,
    { job with
      status := Status.cancelled
      output := none
      audioData := none })

/-- Result of `ffmpeg_export_audio` (main.py lines 1447-1468). -/
inductive AudioOutcome : Type
  | invalidJob
  | received (audioSize : Nat)
deriving DecidableEq

/-- `ffmpeg_export_audio` (main.py lines 1447-1468) on a job that exists
in the registry: write the request body to the job's audio file and record
its path on the job, with no status check and no status change; a
resubmission overwrites the previous audio artifact. -/
def submitAudioData (job : ComposeJob) (dat : Bytes) :
    AudioOutcome × ComposeJob :=
  (.received dat.length, { job with audioData := some dat })

/-- The process-wide `compose_jobs` table (main.py line 996). -/
abbrev Registry := List (String × ComposeJob)

/-- `COMPOSE_JOB_MAX_AGE` (main.py line 997), in seconds. -/
def composeJobMaxAge : Int := 3600

/-- `_cleanup_old_jobs` (main.py lines 1000-1008): drop every job whose
age exceeds the retention window and whose status is terminal (and delete
its temp files, which live outside the registry). -/
def cleanupOldJobs (now : Int) (reg : Registry) : Registry :=
  reg.filter fun p =>
    ! (decide (now - p.2.createdAt > composeJobMaxAge) && p.2.status.isTerminal)

/-- Result of `ffmpeg_export_compose` (main.py lines 1268-1371). -/
inductive ComposeOutcome : Type
  | invalidTotal
  | ffmpegUnavailable
  | spawnFailed
  | created (jobId : String)
deriving DecidableEq

/-- The fresh `ComposeExportJob` record built by `ffmpeg_export_compose`
(main.py lines 1336-1358): status `encoding`, an empty frame buffer,
`next_frame_to_write = 0`, no frames received, a live process with an
open, writable stdin, and no artifacts yet. -/
def newComposeJob (jobId : String) (width height fpsVal : Nat)
    (totalFrames : Int) (codec quality container : String)
    (videoBitrate audioBitrate : Option Int) (createdAt : Int) : ComposeJob :=
  { jobId := jobId
    width := width
    height := height
    fps := fpsVal
    totalFrames := totalFrames
    codec := codec
    quality := quality
    container := container
    videoBitrate := videoBitrate
    audioBitrate := audioBitrate
    hasProcess := true
    stdinAvail := true
    writeOk := true
    returncode := none
    framesReceived := 0
    status := Status.encoding
    errMsg := none
    createdAt := createdAt
    frameBuffer := []
    nextFrameToWrite := 0
    encoderFps := 0
    written := []
    videoOnly := none
    output := none
    audioData := none }

/-- `ffmpeg_export_compose` (main.py lines 1268-1371): sweep stale
terminal jobs, reject a non-positive `totalFrames`, check that FFmpeg is
available, spawn the encoder process (`spawnOk` is whether
`create_subprocess_exec` succeeds), store the new job in the registry and
return its id. -/
def exportCompose (reg : Registry) (now : Int) (jobId : String)
    (width height fpsVal : Nat) (totalFrames : Int)
    (codec quality container : String) (videoBitrate audioBitrate : Option Int)
    (ffmpegAvailable spawnOk : Bool) : ComposeOutcome × Registry :=
  let reg1 := cleanupOldJobs now reg
  if totalFrames ≤ 0 then (.invalidTotal, reg1)
  else if ¬ ffmpegAvailable then (.ffmpegUnavailable, reg1)
  else if ¬ spawnOk then (.spawnFailed, reg1)
  else
    let job := newComposeJob jobId width height fpsVal totalFrames codec quality
      container videoBitrate audioBitrate now
    (.created jobId, alistInsert jobId job reg1)

/-- Result of `ffmpeg_export_progress` (main.py lines 1592-1610). -/
inductive ProgressOutcome : Type
  | invalidJob
  | info (phase : Status) (progress : ℚ) (framesReceived : Nat)
      (totalFrames : Int) (encoderFps : ℚ)
deriving DecidableEq

/-- The progress value computed by `ffmpeg_export_progress` (main.py lines
1599-1601): `min(frames_received / total_frames, 1.0)` when
`total_frames > 0`, else `0.0`.  Real arithmetic is modelled with `ℚ`. -/
def progressOf (job : ComposeJob) : ℚ :=
  if 0 < job.totalFrames then
    min ((job.framesReceived : ℚ) / (job.totalFrames : ℚ)) 1
  else 0

/-- `ffmpeg_export_progress` (main.py lines 1592-1610): a pure read of the
job's status, progress, frame counters and encoder throughput.  The
registry is returned unchanged to make the absence of mutation explicit. -/
def exportProgress (reg : Registry) (jobId : String) :
    ProgressOutcome × Registry :=
  match alistLookup jobId reg with
  | none => (.invalidJob, reg)
  | some job =>
    (.info job.status (progressOf job) job.framesReceived job.totalFrames
      job.encoderFps, reg)

/-- Result of `ffmpeg_export_download` (main.py lines 1613-1640). -/
inductive DownloadOutcome : Type
  | invalidJob
  | notDone (st : Status)
  | fileMissing
  | file (contents : Bytes)
deriving DecidableEq

/-- `ffmpeg_export_download` (main.py lines 1613-1640): serve the finished
output file; errors when the job is unknown, not `done`, or the file is
missing.  No job state is mutated. -/
def exportDownload (reg : Registry) (jobId : String) :
    DownloadOutcome × Registry :=
  match alistLookup jobId reg with
  | none => (.invalidJob, reg)
  | some job =>
    if job.status ≠ Status.done then (.notDone job.status, reg)
    else
      match job.output with
      | none => (.fileMissing, reg)
      | some b => (.file b, reg)

/-- Registry-level `ffmpeg_export_finalize`: look the job up (unknown id →
`Invalid jobId`, registry untouched), run the finalize body, store the
mutated job back. -/
def finalizeApi (reg : Registry) (jobId : String) (env : FinalizeEnv) :
    FinalizeOutcome × Registry :=
  match alistLookup jobId reg with
  | none => (.invalidJob, reg)
  | some job =>
    let r := finalizeJob job env
    (r.1, alistInsert jobId r.2 reg)

/-- Registry-level `ffmpeg_export_frame`: look the job up (unknown id →
`Invalid jobId`), run the submit body, store the mutated job back. -/
def submitFrameApi (reg : Registry) (jobId : String) (frameIndex : Nat)
    (dat : Bytes) : SubmitOutcome × Registry :=
  match alistLookup jobId reg with
  | none => (.invalidJob, reg)
  | some job =>
    let r := submitFrame job frameIndex dat
    (r.1, alistInsert jobId r.2 reg)

/-- Registry-level `ffmpeg_export_cancel`. -/
def cancelApi (reg : Registry) (jobId : String) : CancelOutcome × Registry :=
  match alistLookup jobId reg with
  | none => (.invalidJob, reg)
  | some job =>
    let r := cancelJob job
    (r.1, alistInsert jobId r.2 reg)

/-- Invariant tying a job's state to the set `S` of frame indices
submitted so far (each exactly once, with payload `P i` for index `i`):
the cursor sits at the least index outside `S`, the log holds the flushed
prefix in index order, and the buffer holds exactly the submitted indices
at or beyond the cursor. -/
structure SubmitInv (P : Nat → Bytes) (w h : Nat) (S : List Nat)
    (job : ComposeJob) : Prop where
  stEq : job.status = Status.encoding
  hProc : job.hasProcess = true
  hStdin : job.stdinAvail = true
  hWrite : job.writeOk = true
  wEq : job.width = w
  htEq : job.height = h
  frEq : job.framesReceived = S.length
  lower : ∀ j, j < job.nextFrameToWrite → j ∈ S
  gap : job.nextFrameToWrite ∉ S
  nodupKeys : (alistKeys job.frameBuffer).Nodup
  bufChar : ∀ k, alistLookup k job.frameBuffer =
    if k ∈ S ∧ job.nextFrameToWrite ≤ k then some (P k) else none
  writtenEq : job.written =
    (List.range job.nextFrameToWrite).map (fun j => (j, P j))

/-- A sequence of `ffmpeg_export_frame` calls with payload `P i` for frame
index `i`, processed in order: the list of responses and the final job. -/
def submitRun (P : Nat → Bytes) : List Nat → ComposeJob →
    List SubmitOutcome × ComposeJob
  | [], job => ([], job)
  | i :: rest, job =>
    let r := submitFrame job i (P i)
    let rs := submitRun P rest r.2
    (r.1 :: rs.1, rs.2)

/-- The documented frame-buffer shape: unique keys, all at or beyond the
write cursor. -/
def BufferInv (job : ComposeJob) : Prop :=
  (alistKeys job.frameBuffer).Nodup ∧
  ∀ k ∈ alistKeys job.frameBuffer, job.nextFrameToWrite ≤ k

theorem alistLookup_insert {α β : Type} [DecidableEq α] (k k' : α) (v : β)
    (l : List (α × β)) :
    alistLookup k (alistInsert k' v l) =
      if k' = k then some v else alistLookup k l := by
  induction l with
  | nil => simp [alistInsert, alistLookup]
  | cons p rest ih =>
    obtain ⟨k₁, v₁⟩ := p
    by_cases h₁ : k₁ = k'
    · subst h₁
      by_cases h₂ : k₁ = k <;> simp [alistInsert, alistLookup, h₂]
    · by_cases h₂ : k₁ = k
      · subst h₂
        have : ¬ k' = k₁ := fun h => h₁ h.symm
        simp [alistInsert, alistLookup, h₁, this]
      · simp [alistInsert, alistLookup, h₁, h₂, ih]

theorem alistLookup_erase_ne {α β : Type} [DecidableEq α] {k k' : α}
    (l : List (α × β)) (h : k' ≠ k) :
    alistLookup k (alistErase k' l) = alistLookup k l := by
  induction l with
  | nil => simp [alistErase, alistLookup]
  | cons p rest ih =>
    obtain ⟨k₁, v₁⟩ := p
    by_cases h₁ : k₁ = k'
    · subst h₁
      simp [alistErase, alistLookup, h]
    · by_cases h₂ : k₁ = k
      · subst h₂
        simp [alistErase, alistLookup, h₁]
      · simp [alistErase, alistLookup, h₁, h₂, ih]

theorem mem_alistKeys_of_lookup {α β : Type} [DecidableEq α] {k : α} {v : β}
    {l : List (α × β)} (h : alistLookup k l = some v) : k ∈ alistKeys l := by
  induction l with
  | nil => simp [alistLookup] at h
  | cons p rest ih =>
    obtain ⟨k₁, v₁⟩ := p
    by_cases h₁ : k₁ = k
    · subst h₁; simp [alistKeys]
    · simp [alistLookup, h₁] at h
      simp [alistKeys] at ih ⊢
      exact Or.inr (ih h)

theorem alistLookup_eq_none_of_not_mem {α β : Type} [DecidableEq α] {k : α}
    {l : List (α × β)} (h : k ∉ alistKeys l) : alistLookup k l = none := by
  induction l with
  | nil => simp [alistLookup]
  | cons p rest ih =>
    obtain ⟨k₁, v₁⟩ := p
    simp [alistKeys] at h
    have h₁ : ¬ k₁ = k := fun hk => h.1 hk.symm
    simp [alistLookup, h₁]
    exact ih (by simpa [alistKeys] using h.2)

theorem alistLookup_erase_self {α β : Type} [DecidableEq α] (k : α)
    {l : List (α × β)} (hnd : (alistKeys l).Nodup) :
    alistLookup k (alistErase k l) = none := by
  induction l with
  | nil => simp [alistErase, alistLookup]
  | cons p rest ih =>
    obtain ⟨k₁, v₁⟩ := p
    simp [alistKeys] at hnd
    by_cases h₁ : k₁ = k
    · subst h₁
      simp [alistErase]
      exact alistLookup_eq_none_of_not_mem (by simpa [alistKeys] using hnd.1)
    · simp [alistErase, alistLookup, h₁]
      exact ih hnd.2

theorem alistErase_length {α β : Type} [DecidableEq α] {k : α} {v : β}
    {l : List (α × β)} (h : alistLookup k l = some v) :
    (alistErase k l).length + 1 = l.length := by
  induction l with
  | nil => simp [alistLookup] at h
  | cons p rest ih =>
    obtain ⟨k₁, v₁⟩ := p
    by_cases h₁ : k₁ = k
    · simp [alistErase, h₁]
    · simp [alistLookup, h₁] at h
      simp [alistErase, h₁]
      exact ih h

theorem alistKeys_cons {α β : Type} (k : α) (v : β) (l : List (α × β)) :
    alistKeys ((k, v) :: l) = k :: alistKeys l := rfl

theorem mem_alistKeys_insert {α β : Type} [DecidableEq α] (x k : α) (v : β)
    (l : List (α × β)) :
    x ∈ alistKeys (alistInsert k v l) ↔ x = k ∨ x ∈ alistKeys l := by
  induction l with
  | nil => simp [alistInsert, alistKeys]
  | cons p rest ih =>
    obtain ⟨k₁, v₁⟩ := p
    by_cases h₁ : k₁ = k
    · subst h₁
      rw [show alistInsert k₁ v ((k₁, v₁) :: rest) = (k₁, v) :: rest from by
        simp [alistInsert]]
      rw [alistKeys_cons, alistKeys_cons]
      simp
    · rw [show alistInsert k v ((k₁, v₁) :: rest) =
          (k₁, v₁) :: alistInsert k v rest from by simp [alistInsert, h₁]]
      rw [alistKeys_cons, alistKeys_cons]
      simp only [List.mem_cons, ih]
      tauto

theorem nodup_alistKeys_insert {α β : Type} [DecidableEq α] (k : α) (v : β)
    {l : List (α × β)} (hnd : (alistKeys l).Nodup) :
    (alistKeys (alistInsert k v l)).Nodup := by
  induction l with
  | nil => simp [alistInsert, alistKeys]
  | cons p rest ih =>
    obtain ⟨k₁, v₁⟩ := p
    rw [alistKeys_cons, List.nodup_cons] at hnd
    by_cases h₁ : k₁ = k
    · subst h₁
      rw [show alistInsert k₁ v ((k₁, v₁) :: rest) = (k₁, v) :: rest from by
        simp [alistInsert]]
      rw [alistKeys_cons, List.nodup_cons]
      exact hnd
    · rw [show alistInsert k v ((k₁, v₁) :: rest) =
          (k₁, v₁) :: alistInsert k v rest from by simp [alistInsert, h₁]]
      rw [alistKeys_cons, List.nodup_cons]
      refine ⟨?_, ih hnd.2⟩
      intro hmem
      rcases (mem_alistKeys_insert k₁ k v rest).1 hmem with h | h
      · exact h₁ h
      · exact hnd.1 h

theorem alistKeys_erase_sublist {α β : Type} [DecidableEq α] (k : α)
    (l : List (α × β)) : (alistKeys (alistErase k l)).Sublist (alistKeys l) := by
  induction l with
  | nil => simp [alistErase, alistKeys]
  | cons p rest ih =>
    obtain ⟨k₁, v₁⟩ := p
    by_cases h₁ : k₁ = k
    · rw [show alistErase k ((k₁, v₁) :: rest) = rest from by simp [alistErase, h₁]]
      rw [alistKeys_cons]
      exact List.sublist_cons_self _ _
    · rw [show alistErase k ((k₁, v₁) :: rest) = (k₁, v₁) :: alistErase k rest from by
        simp [alistErase, h₁]]
      rw [alistKeys_cons, alistKeys_cons]
      exact ih.cons₂ _

theorem nodup_alistKeys_erase {α β : Type} [DecidableEq α] (k : α)
    {l : List (α × β)} (hnd : (alistKeys l).Nodup) :
    (alistKeys (alistErase k l)).Nodup :=
  hnd.sublist (alistKeys_erase_sublist k l)

theorem alistLookup_filter_none {α β : Type} [DecidableEq α] {k : α}
    (p : α × β → Bool) {l : List (α × β)} (h : alistLookup k l = none) :
    alistLookup k (l.filter p) = none := by
  induction l with
  | nil => simp [alistLookup]
  | cons q rest ih =>
    obtain ⟨k₁, v₁⟩ := q
    by_cases h₁ : k₁ = k
    · simp [alistLookup, h₁] at h
    · simp [alistLookup, h₁] at h
      by_cases hp : p (k₁, v₁) <;> simp [List.filter, hp, alistLookup, h₁, ih h]

theorem mem_alistKeys_lookup_isSome {α β : Type} [DecidableEq α] {k : α}
    {l : List (α × β)} (h : k ∈ alistKeys l) : ∃ v, alistLookup k l = some v := by
  induction l with
  | nil => simp [alistKeys] at h
  | cons p rest ih =>
    obtain ⟨k₁, v₁⟩ := p
    by_cases h₁ : k₁ = k
    · exact ⟨v₁, by simp [alistLookup, h₁]⟩
    · rw [alistKeys_cons, List.mem_cons] at h
      rcases h with h | h
    
      · exact absurd h.symm h₁
      · obtain ⟨v, hv⟩ := ih h
        exact ⟨v, by simp [alistLookup, h₁, hv]⟩

theorem drainAux_mono (fuel : Nat) : ∀ job : ComposeJob,
    job.nextFrameToWrite ≤ (drainAux fuel job).1.nextFrameToWrite ∧
    (drainAux fuel job).1.framesReceived = job.framesReceived := by
  induction fuel with
  | zero => intro job; exact ⟨le_refl _, rfl⟩
  | succ fuel ih =>
    intro job
    cases h : alistLookup job.nextFrameToWrite job.frameBuffer with
    | none => simp [drainAux, h]
    | some d =>
      by_cases hw : job.writeOk = true
      · have hstep : drainAux (fuel + 1) job = drainAux fuel
            { job with
              frameBuffer := alistErase job.nextFrameToWrite job.frameBuffer
              written := job.written ++ [(job.nextFrameToWrite, d)]
              nextFrameToWrite := job.nextFrameToWrite + 1 } := by
          simp only [drainAux, h]
          rw [if_pos hw]
        have h₂ := ih
          { job with
            frameBuffer := alistErase job.nextFrameToWrite job.frameBuffer
            written := job.written ++ [(job.nextFrameToWrite, d)]
            nextFrameToWrite := job.nextFrameToWrite + 1 }
        rw [hstep]
        exact ⟨le_trans (Nat.le_succ _) h₂.1, h₂.2⟩
      · simp [drainAux, h, hw]

theorem drainAux_keys_lower (fuel : Nat) : ∀ job : ComposeJob,
    (alistKeys job.frameBuffer).Nodup →
    (∀ k ∈ alistKeys job.frameBuffer, job.nextFrameToWrite ≤ k) →
    (alistKeys (drainAux fuel job).1.frameBuffer).Nodup ∧
    ∀ k ∈ alistKeys (drainAux fuel job).1.frameBuffer,
      (drainAux fuel job).1.nextFrameToWrite ≤ k := by
  induction fuel with
  | zero => intro job hnd hlow; exact ⟨hnd, hlow⟩
  | succ fuel ih =>
    intro job hnd hlow
    cases h : alistLookup job.nextFrameToWrite job.frameBuffer with
    | none =>
      simp only [drainAux, h]
      exact ⟨hnd, hlow⟩
    | some d =>
      have hnd' : (alistKeys (alistErase job.nextFrameToWrite job.frameBuffer)).Nodup :=
        nodup_alistKeys_erase _ hnd
      have hlow' : ∀ k ∈ alistKeys (alistErase job.nextFrameToWrite job.frameBuffer),
          job.nextFrameToWrite + 1 ≤ k := by
        intro k hk
        have hmem : k ∈ alistKeys job.frameBuffer :=
          (alistKeys_erase_sublist _ _).mem hk
        have hle := hlow k hmem
        have hne : k ≠ job.nextFrameToWrite := by
          intro hkeq
          subst hkeq
          obtain ⟨v, hv⟩ := mem_alistKeys_lookup_isSome hk
          rw [alistLookup_erase_self _ hnd] at hv
          exact Option.noConfusion hv
        omega
      by_cases hw : job.writeOk = true
      · simp only [drainAux, h, hw, if_true]
        exact ih _ hnd' hlow'
      · simp only [drainAux, h, hw, if_false, Bool.false_eq_true]
        exact ⟨hnd', fun k hk => hlow k ((alistKeys_erase_sublist _ _).mem hk)⟩

theorem flushAux_shape (fuel : Nat) : ∀ job : ComposeJob,
    ∃ b w n, flushAux fuel job =
      { job with frameBuffer := b, written := w, nextFrameToWrite := n } ∧
      job.nextFrameToWrite ≤ n := by
  induction fuel with
  | zero =>
    intro job
    exact ⟨job.frameBuffer, job.written, job.nextFrameToWrite, rfl, le_refl _⟩
  | succ fuel ih =>
    intro job
    cases h : alistLookup job.nextFrameToWrite job.frameBuffer with
    | none =>
      refine ⟨job.frameBuffer, job.written, job.nextFrameToWrite, ?_, le_refl _⟩
      simp only [flushAux, h]
    | some d =>
      obtain ⟨b, w, n, heq, hle⟩ := ih
        { job with
          frameBuffer := alistErase job.nextFrameToWrite job.frameBuffer
          written :=
            if job.hasProcess && job.stdinAvail && job.writeOk then
              job.written ++ [(job.nextFrameToWrite, d)]
            else job.written
          nextFrameToWrite := job.nextFrameToWrite + 1 }
      refine ⟨b, w, n, ?_, le_trans (Nat.le_succ _) hle⟩
      simp only [flushAux, h]
      exact heq

theorem flushAux_keys_lower (fuel : Nat) : ∀ job : ComposeJob,
    (alistKeys job.frameBuffer).Nodup →
    (∀ k ∈ alistKeys job.frameBuffer, job.nextFrameToWrite ≤ k) →
    (alistKeys (flushAux fuel job).frameBuffer).Nodup ∧
    ∀ k ∈ alistKeys (flushAux fuel job).frameBuffer,
      (flushAux fuel job).nextFrameToWrite ≤ k := by
  induction fuel with
  | zero => intro job hnd hlow; exact ⟨hnd, hlow⟩
  | succ fuel ih =>
    intro job hnd hlow
    cases h : alistLookup job.nextFrameToWrite job.frameBuffer with
    | none =>
      simp only [flushAux, h]
      exact ⟨hnd, hlow⟩
    | some d =>
      have hnd' : (alistKeys (alistErase job.nextFrameToWrite job.frameBuffer)).Nodup :=
        nodup_alistKeys_erase _ hnd
      have hlow' : ∀ k ∈ alistKeys (alistErase job.nextFrameToWrite job.frameBuffer),
          job.nextFrameToWrite + 1 ≤ k := by
        intro k hk
        have hmem : k ∈ alistKeys job.frameBuffer :=
          (alistKeys_erase_sublist _ _).mem hk
        have hle := hlow k hmem
        have hne : k ≠ job.nextFrameToWrite := by
          intro hkeq
          subst hkeq
          obtain ⟨v, hv⟩ := mem_alistKeys_lookup_isSome hk
          rw [alistLookup_erase_self _ hnd] at hv
          exact Option.noConfusion hv
        omega
      simp only [flushAux, h]
      exact ih _ hnd' hlow'

theorem foldr_max_le_aux (b : Nat) (l : List Nat) :
    b ≤ l.foldr max b ∧ ∀ x ∈ l, x ≤ l.foldr max b := by
  induction l with
  | nil => exact ⟨le_refl _, by simp⟩
  | cons a l ih =>
    refine ⟨le_trans ih.1 (le_max_right a _), ?_⟩
    intro x hx
    rcases List.mem_cons.1 hx with h | h
    · subst h; exact le_max_left _ _
    · exact le_trans (ih.2 x h) (le_max_right _ _)

/-- Complete characterisation of the submit-path drain loop when writes
succeed and the buffer holds exactly the payloads of the submitted index
set `S` at or beyond the write cursor: the loop advances the cursor to
`M`, the least index ≥ the cursor outside `S`, writes the intervening
payloads in index order, and leaves the buffer holding exactly the
indices of `S` at or beyond `M`. -/
theorem drainAux_run (P : Nat → Bytes) (S : List Nat) (M : Nat) :
    ∀ (fuel : Nat) (job : ComposeJob),
    job.frameBuffer.length ≤ fuel →
    job.writeOk = true →
    (alistKeys job.frameBuffer).Nodup →
    (∀ k, alistLookup k job.frameBuffer =
      if k ∈ S ∧ job.nextFrameToWrite ≤ k then some (P k) else none) →
    job.written = (List.range job.nextFrameToWrite).map (fun j => (j, P j)) →
    job.nextFrameToWrite ≤ M →
    (∀ j, job.nextFrameToWrite ≤ j → j < M → j ∈ S) →
    M ∉ S →
    ∃ b, drainAux fuel job =
        ({ job with
            frameBuffer := b
            written := (List.range M).map (fun j => (j, P j))
            nextFrameToWrite := M }, true) ∧
      (alistKeys b).Nodup ∧
      (∀ k, alistLookup k b = if k ∈ S ∧ M ≤ k then some (P k) else none) := by
  intro fuel
  induction fuel with
  | zero =>
    intro job hlen hw hnd hchar hwr hMge hrange hMS
    have hbuf : job.frameBuffer = [] := by
      cases hb : job.frameBuffer with
      | nil => rfl
      | cons p rest => rw [hb] at hlen; simp at hlen
    have hns : job.nextFrameToWrite ∉ S := by
      intro hmem
      have hc := hchar job.nextFrameToWrite
      rw [hbuf] at hc
      simp [alistLookup, hmem] at hc
    have hM : M = job.nextFrameToWrite := by
      by_contra hne
      have hlt : job.nextFrameToWrite < M :=
        lt_of_le_of_ne hMge (fun he => hne he.symm)
      exact hns (hrange _ (le_refl _) hlt)
    refine ⟨job.frameBuffer, ?_, hnd, ?_⟩
    · show (job, true) = _
      rw [hM, ← hwr]
    · intro k
      rw [hM]
      exact hchar k
  | succ fuel ih =>
    intro job hlen hw hnd hchar hwr hMge hrange hMS
    cases hl : alistLookup job.nextFrameToWrite job.frameBuffer with
    | none =>
      have hns : job.nextFrameToWrite ∉ S := by
        intro hmem
        have hc := hchar job.nextFrameToWrite
        rw [hl] at hc
        simp [hmem] at hc
      have hM : M = job.nextFrameToWrite := by
        by_contra hne
        have hlt : job.nextFrameToWrite < M :=
          lt_of_le_of_ne hMge (fun he => hne he.symm)
        exact hns (hrange _ (le_refl _) hlt)
      refine ⟨job.frameBuffer, ?_, hnd, ?_⟩
      · have hstop : drainAux (fuel + 1) job = (job, true) := by
          simp only [drainAux, hl]
        rw [hstop, hM, ← hwr]
      · intro k
        rw [hM]
        exact hchar k
    | some d =>
      have hc := hchar job.nextFrameToWrite
      rw [hl] at hc
      by_cases hmem : job.nextFrameToWrite ∈ S
      · have hcond : job.nextFrameToWrite ∈ S ∧
            job.nextFrameToWrite ≤ job.nextFrameToWrite := ⟨hmem, le_refl _⟩
        rw [if_pos hcond] at hc
        have hd : d = P job.nextFrameToWrite := by
          injection hc with hc'
        subst hd
        have hne : job.nextFrameToWrite ≠ M := fun he => hMS (he ▸ hmem)
        have hlt : job.nextFrameToWrite < M := lt_of_le_of_ne hMge hne
        have hlen2 : (alistErase job.nextFrameToWrite job.frameBuffer).length ≤ fuel := by
          have h' := alistErase_length hl
          omega
        have hnd2 := nodup_alistKeys_erase job.nextFrameToWrite hnd
        have hchar2 : ∀ k,
            alistLookup k (alistErase job.nextFrameToWrite job.frameBuffer) =
              if k ∈ S ∧ job.nextFrameToWrite + 1 ≤ k then some (P k) else none := by
          intro k
          by_cases hk : k = job.nextFrameToWrite
          · subst hk
            rw [alistLookup_erase_self _ hnd]
            have hcneg : ¬ (job.nextFrameToWrite ∈ S ∧
                job.nextFrameToWrite + 1 ≤ job.nextFrameToWrite) :=
              fun hcc => by omega
            rw [if_neg hcneg]
          · rw [alistLookup_erase_ne _ (fun he => hk he.symm), hchar k]
            have hiff : (k ∈ S ∧ job.nextFrameToWrite ≤ k) ↔
                (k ∈ S ∧ job.nextFrameToWrite + 1 ≤ k) := by
              constructor
              · rintro ⟨h1, h2⟩
                exact ⟨h1, by omega⟩
              · rintro ⟨h1, h2⟩
                exact ⟨h1, by omega⟩
            rw [if_congr hiff rfl rfl]
        have hwr2 : job.written ++ [(job.nextFrameToWrite, P job.nextFrameToWrite)] =
            (List.range (job.nextFrameToWrite + 1)).map (fun j => (j, P j)) := by
          rw [hwr, List.range_succ, List.map_append]
          simp
        have hrange2 : ∀ j, job.nextFrameToWrite + 1 ≤ j → j < M → j ∈ S :=
          fun j h1 h2 => hrange j (by omega) h2
        obtain ⟨b, heq, hndB, hcharB⟩ := ih
          { job with
            frameBuffer := alistErase job.nextFrameToWrite job.frameBuffer
            written := job.written ++ [(job.nextFrameToWrite, P job.nextFrameToWrite)]
            nextFrameToWrite := job.nextFrameToWrite + 1 }
          hlen2 hw hnd2 hchar2 hwr2
          (show job.nextFrameToWrite + 1 ≤ M from by omega) hrange2 hMS
        refine ⟨b, ?_, hndB, hcharB⟩
        have hstep : drainAux (fuel + 1) job = drainAux fuel
            { job with
              frameBuffer := alistErase job.nextFrameToWrite job.frameBuffer
              written := job.written ++ [(job.nextFrameToWrite, P job.nextFrameToWrite)]
              nextFrameToWrite := job.nextFrameToWrite + 1 } := by
          simp only [drainAux, hl]
          rw [if_pos hw]
        rw [hstep, heq]
      · rw [if_neg (fun hcc : _ ∧ _ => hmem hcc.1)] at hc
        exact Option.noConfusion hc

/-- `ffmpeg_export_frame` with all guards passing reduces to the
buffer-insert, counter-increment and drain sequence of lines 1428-1444. -/
theorem submitFrame_accepts (job : ComposeJob) (i : Nat) (dat : Bytes)
    (h1 : job.status = Status.encoding) (h2 : dat ≠ [])
    (h3 : job.hasProcess = true) (h4 : job.stdinAvail = true)
    (h5 : dat.length = job.width * job.height * 4) :
    submitFrame job i dat =
      (let job1 := { job with
          frameBuffer := alistInsert i dat job.frameBuffer
          framesReceived := job.framesReceived + 1 }
       let r := drainBuffer job1
       if r.2 then (SubmitOutcome.accepted r.1.framesReceived, r.1)
       else (SubmitOutcome.writeFailed, r.1)) := by
  unfold submitFrame
  rw [if_neg (by rw [h1]; simp), if_neg h2, if_neg (by simp [h3, h4]),
    if_neg (by simp [h5])]

/-- Accepting one fresh index `i ∉ S` preserves the submission invariant,
moving it from `S` to `i :: S`, and returns the incremented counter. -/
theorem submitFrame_step (P : Nat → Bytes) (w h : Nat) (S : List Nat)
    (job : ComposeJob) (i : Nat)
    (inv : SubmitInv P w h S job) (hi : i ∉ S)
    (hsz : (P i).length = w * h * 4) (hwh : 0 < w * h) :
    (submitFrame job i (P i)).1 = SubmitOutcome.accepted (S.length + 1) ∧
    SubmitInv P w h (i :: S) (submitFrame job i (P i)).2 := by
  have hPne : P i ≠ [] := by
    intro he
    have hz : (P i).length = 0 := by rw [he]; rfl
    rw [hsz] at hz
    have h4 : 0 < w * h * 4 := Nat.mul_pos hwh (by norm_num)
    omega
  have hsz' : (P i).length = job.width * job.height * 4 := by
    rw [inv.wEq, inv.htEq]; exact hsz
  have hile : job.nextFrameToWrite ≤ i := by
    by_contra hlt
    push_neg at hlt
    exact hi (inv.lower i hlt)
  have hQex : ∃ m, job.nextFrameToWrite ≤ m ∧ m ∉ (i :: S) := by
    refine ⟨((i :: S).foldr max job.nextFrameToWrite) + 1, ?_, ?_⟩
    · have := (foldr_max_le_aux job.nextFrameToWrite (i :: S)).1
      omega
    · intro hmem
      have := (foldr_max_le_aux job.nextFrameToWrite (i :: S)).2 _ hmem
      omega
  obtain ⟨M, hMge, hMgap, hMmin⟩ : ∃ M, job.nextFrameToWrite ≤ M ∧
      M ∉ (i :: S) ∧
      ∀ j, job.nextFrameToWrite ≤ j → j < M → j ∈ (i :: S) := by
    refine ⟨Nat.find hQex, (Nat.find_spec hQex).1, (Nat.find_spec hQex).2, ?_⟩
    intro j hj1 hj2
    by_contra hjS
    exact Nat.find_min hQex hj2 ⟨hj1, hjS⟩
  have nodup1 : (alistKeys (alistInsert i (P i) job.frameBuffer)).Nodup :=
    nodup_alistKeys_insert i (P i) inv.nodupKeys
  have char1 : ∀ k, alistLookup k (alistInsert i (P i) job.frameBuffer) =
      if k ∈ (i :: S) ∧ job.nextFrameToWrite ≤ k then some (P k) else none := by
    intro k
    rw [alistLookup_insert]
    by_cases hk : i = k
    · subst hk
      rw [if_pos rfl, if_pos ⟨List.mem_cons_self i S, hile⟩]
    · rw [if_neg hk, inv.bufChar k]
      have hiff : (k ∈ S ∧ job.nextFrameToWrite ≤ k) ↔
          (k ∈ (i :: S) ∧ job.nextFrameToWrite ≤ k) := by
        constructor
        · rintro ⟨h1, h2⟩
          exact ⟨List.mem_cons_of_mem _ h1, h2⟩
        · rintro ⟨h1, h2⟩
          rcases List.mem_cons.1 h1 with he | hmm
          · exact absurd he.symm hk
          · exact ⟨hmm, h2⟩
      rw [if_congr hiff rfl rfl]
  obtain ⟨b, heq, hndB, hcharB⟩ := drainAux_run P (i :: S) M
    (alistInsert i (P i) job.frameBuffer).length
    { job with
      frameBuffer := alistInsert i (P i) job.frameBuffer
      framesReceived := job.framesReceived + 1 }
    (le_refl _) inv.hWrite nodup1 char1 inv.writtenEq hMge hMmin hMgap
  have hmain : submitFrame job i (P i) =
      (SubmitOutcome.accepted (job.framesReceived + 1),
        { job with
          frameBuffer := b
          framesReceived := job.framesReceived + 1
          written := (List.range M).map (fun j => (j, P j))
          nextFrameToWrite := M }) := by
    rw [submitFrame_accepts job i (P i) inv.stEq hPne inv.hProc inv.hStdin hsz']
    show (if (drainBuffer { job with
          frameBuffer := alistInsert i (P i) job.frameBuffer
          framesReceived := job.framesReceived + 1 }).2 then
        (SubmitOutcome.accepted (drainBuffer { job with
          frameBuffer := alistInsert i (P i) job.frameBuffer
          framesReceived := job.framesReceived + 1 }).1.framesReceived,
          (drainBuffer { job with
            frameBuffer := alistInsert i (P i) job.frameBuffer
            framesReceived := job.framesReceived + 1 }).1)
      else (SubmitOutcome.writeFailed, (drainBuffer { job with
          frameBuffer := alistInsert i (P i) job.frameBuffer
          framesReceived := job.framesReceived + 1 }).1)) = _
    rw [show drainBuffer { job with
          frameBuffer := alistInsert i (P i) job.frameBuffer
          framesReceived := job.framesReceived + 1 } =
        ({ job with
          frameBuffer := b
          framesReceived := job.framesReceived + 1
          written := (List.range M).map (fun j => (j, P j))
          nextFrameToWrite := M }, true) from heq]
    rfl
  rw [hmain]
  constructor
  · rw [inv.frEq]
  · constructor
    · exact inv.stEq
    · exact inv.hProc
    · exact inv.hStdin
    · exact inv.hWrite
    · exact inv.wEq
    · exact inv.htEq
    · rw [inv.frEq]; rfl
    · intro j hj
      rcases Nat.lt_or_ge j job.nextFrameToWrite with hlt | hge
      · exact List.mem_cons_of_mem _ (inv.lower j hlt)
      · exact hMmin j hge hj
    · exact hMgap
    · exact hndB
    · exact hcharB
    · rfl

/-- Running any list of pairwise-distinct, not-yet-submitted indices with
correctly sized payloads from an invariant state accepts every submission
and re-establishes the invariant for the enlarged index set. -/
theorem submitRun_inv (P : Nat → Bytes) (w h : Nat) (hwh : 0 < w * h) :
    ∀ (order : List Nat) (S : List Nat) (job : ComposeJob),
    SubmitInv P w h S job →
    (∀ i ∈ order, i ∉ S) →
    order.Nodup →
    (∀ i ∈ order, (P i).length = w * h * 4) →
    (∀ o ∈ (submitRun P order job).1, ∃ n, o = SubmitOutcome.accepted n) ∧
    ∃ S', (∀ x, x ∈ S' ↔ x ∈ order ∨ x ∈ S) ∧
      S'.length = order.length + S.length ∧
      SubmitInv P w h S' (submitRun P order job).2 := by
  intro order
  induction order with
  | nil =>
    intro S job inv _ _ _
    refine ⟨by simp [submitRun], S, by simp, by simp, inv⟩
  | cons i rest ih =>
    intro S job inv hdisj hnd hsz
    obtain ⟨hout, hinv1⟩ := submitFrame_step P w h S job i inv
      (hdisj i (List.mem_cons_self i rest)) (hsz i (List.mem_cons_self i rest)) hwh
    have hdisj1 : ∀ j ∈ rest, j ∉ i :: S := by
      intro j hj
      rw [List.mem_cons]
      rintro (rfl | hjS)
      · exact (List.nodup_cons.1 hnd).1 hj
      · exact hdisj j (List.mem_cons_of_mem _ hj) hjS
    have hnd1 := (List.nodup_cons.1 hnd).2
    have hsz1 : ∀ j ∈ rest, (P j).length = w * h * 4 :=
      fun j hj => hsz j (List.mem_cons_of_mem _ hj)
    obtain ⟨hacc, S', hmemS', hlenS', hinvS'⟩ :=
      ih (i :: S) (submitFrame job i (P i)).2 hinv1 hdisj1 hnd1 hsz1
    refine ⟨?_, S', ?_, ?_, ?_⟩
    · intro o ho
      have ho' : o = (submitFrame job i (P i)).1 ∨
          o ∈ (submitRun P rest (submitFrame job i (P i)).2).1 :=
        List.mem_cons.1 ho
      rcases ho' with rfl | hrest
      · exact ⟨S.length + 1, hout⟩
      · exact hacc o hrest
    · intro x
      rw [hmemS' x, List.mem_cons, List.mem_cons]
      tauto
    · rw [hlenS']
      simp [List.length_cons]
      omega
    · exact hinvS'

/-- When the buffer does not hold the next expected index, the drain loop
exits immediately without writing. -/
theorem drainBuffer_stop (job : ComposeJob)
    (h : alistLookup job.nextFrameToWrite job.frameBuffer = none) :
    drainBuffer job = (job, true) := by
  unfold drainBuffer
  cases hl : job.frameBuffer.length with
  | zero => rfl
  | succ n => simp [drainAux, h]

/-- The finalize-path flush only touches the buffer, the write log and the
write cursor; every other job field is preserved. -/
theorem flushBuffer_fields (job : ComposeJob) :
    (flushBuffer job).status = job.status ∧
    (flushBuffer job).audioData = job.audioData ∧
    (flushBuffer job).videoOnly = job.videoOnly ∧
    (flushBuffer job).output = job.output ∧
    (flushBuffer job).framesReceived = job.framesReceived ∧
    (flushBuffer job).hasProcess = job.hasProcess ∧
    (flushBuffer job).stdinAvail = job.stdinAvail ∧
    (flushBuffer job).writeOk = job.writeOk ∧
    (flushBuffer job).totalFrames = job.totalFrames ∧
    (flushBuffer job).width = job.width ∧
    (flushBuffer job).height = job.height := by
  obtain ⟨b, w, n, heq, hle⟩ := flushAux_shape job.frameBuffer.length job
  rw [show flushBuffer job =
    { job with frameBuffer := b, written := w, nextFrameToWrite := n } from heq]
  exact ⟨rfl, rfl, rfl, rfl, rfl, rfl, rfl, rfl, rfl, rfl, rfl⟩

/-- The finalize-path flush never moves the write cursor backwards. -/
theorem flushBuffer_next_mono (job : ComposeJob) :
    job.nextFrameToWrite ≤ (flushBuffer job).nextFrameToWrite := by
  obtain ⟨b, w, n, heq, hle⟩ := flushAux_shape job.frameBuffer.length job
  rw [show flushBuffer job =
    { job with frameBuffer := b, written := w, nextFrameToWrite := n } from heq]
  exact hle

/-- `ffmpeg_export_frame` never decreases the write cursor or the received
counter, on any path (rejection, buffered, drained or write failure). -/
theorem submitFrame_next_frames (job : ComposeJob) (i : Nat) (dat : Bytes) :
    job.nextFrameToWrite ≤ (submitFrame job i dat).2.nextFrameToWrite ∧
    job.framesReceived ≤ (submitFrame job i dat).2.framesReceived := by
  unfold submitFrame
  split
  · exact ⟨le_refl _, le_refl _⟩
  split
  · exact ⟨le_refl _, le_refl _⟩
  split
  · exact ⟨le_refl _, le_refl _⟩
  split
  · exact ⟨le_refl _, le_refl _⟩
  dsimp only
  have hm : ({ job with
      frameBuffer := alistInsert i dat job.frameBuffer
      framesReceived := job.framesReceived + 1 } : ComposeJob).nextFrameToWrite ≤
      (drainBuffer { job with
        frameBuffer := alistInsert i dat job.frameBuffer
        framesReceived := job.framesReceived + 1 }).1.nextFrameToWrite ∧
      (drainBuffer { job with
        frameBuffer := alistInsert i dat job.frameBuffer
        framesReceived := job.framesReceived + 1 }).1.framesReceived =
      ({ job with
        frameBuffer := alistInsert i dat job.frameBuffer
        framesReceived := job.framesReceived + 1 } : ComposeJob).framesReceived :=
    drainAux_mono _ _
  constructor
  · split
    · exact hm.1
    · exact hm.1
  · split
    · exact le_trans (Nat.le_succ _) (le_of_eq hm.2.symm)
    · exact le_trans (Nat.le_succ _) (le_of_eq hm.2.symm)

/-- The mux / fallback / move stage leaves the write cursor and the
received counter unchanged. -/
theorem finalizeArtifacts_next_frames (j3 : ComposeJob) (env : FinalizeEnv) :
    (finalizeArtifacts j3 env).nextFrameToWrite = j3.nextFrameToWrite ∧
    (finalizeArtifacts j3 env).framesReceived = j3.framesReceived := by
  unfold finalizeArtifacts
  constructor
  · repeat' split
    all_goals rfl
  · repeat' split
    all_goals rfl

/-- The mux / fallback / move stage never touches the frame buffer. -/
theorem finalizeArtifacts_buffer (j3 : ComposeJob) (env : FinalizeEnv) :
    (finalizeArtifacts j3 env).frameBuffer = j3.frameBuffer := by
  unfold finalizeArtifacts
  repeat' split
  all_goals rfl

/-- The mux-failure fallback: with an audio artifact present, a non-zero
mux exit and an existing video-only artifact, the video-only artifact is
moved to the final output. -/
theorem finalizeArtifacts_fallback (j3 : ComposeJob) (env : FinalizeEnv)
    (a v : Bytes) (haud : j3.audioData = some a) (hmux : env.muxExitCode ≠ 0)
    (hvid : j3.videoOnly = some v) :
    finalizeArtifacts j3 env = { j3 with output := some v, videoOnly := none } := by
  unfold finalizeArtifacts
  rw [haud, if_pos (show (some a).isSome = true from rfl), if_pos hmux, hvid]

/-- With no audio artifact and no video-only artifact, the mux / move
stage does nothing. -/
theorem finalizeArtifacts_noop (j3 : ComposeJob) (env : FinalizeEnv)
    (haud : j3.audioData = none) (hvid : j3.videoOnly = none) :
    finalizeArtifacts j3 env = j3 := by
  unfold finalizeArtifacts
  rw [haud]
  rw [if_neg (show ¬ ((none : Option Bytes).isSome = true) from by simp)]
  rw [hvid]

/-- `ffmpeg_export_finalize` on an `encoding` job, with the let-bindings
of the definition laid out flat: the three possible responses. -/
theorem finalizeJob_eq (job : ComposeJob) (env : FinalizeEnv)
    (hst : job.status = Status.encoding) :
    finalizeJob job env =
      (if env.waitTimedOut then
        (FinalizeOutcome.waitTimeout,
          { flushBuffer { job with status := Status.finalizing } with
            stdinAvail := false
            status := Status.error
            errMsg := some "FFmpeg timeout (120s)" })
      else if env.exitCode ≠ 0 then
        (FinalizeOutcome.encoderFailed,
          { flushBuffer { job with status := Status.finalizing } with
            stdinAvail := false
            returncode := some env.exitCode
            status := Status.error
            errMsg := some "FFmpeg exited with a nonzero code" })
      else
        (FinalizeOutcome.ok
          (match (finalizeArtifacts
              { flushBuffer { job with status := Status.finalizing } with
                stdinAvail := false
                returncode := some env.exitCode } env).output with
            | some b => b.length
            | none => 0),
          { finalizeArtifacts
              { flushBuffer { job with status := Status.finalizing } with
                stdinAvail := false
                returncode := some env.exitCode } env with
            status := Status.done })) := by
  unfold finalizeJob
  rw [if_neg (by rw [hst]; simp)]

/-- `ffmpeg_export_finalize` never decreases the write cursor and leaves
the received counter unchanged, on every path. -/
theorem finalizeJob_next_frames (job : ComposeJob) (env : FinalizeEnv) :
    job.nextFrameToWrite ≤ (finalizeJob job env).2.nextFrameToWrite ∧
    (finalizeJob job env).2.framesReceived = job.framesReceived := by
  have hle := flushBuffer_next_mono { job with status := Status.finalizing }
  have hfr := (flushBuffer_fields { job with status := Status.finalizing }).2.2.2.2.1
  by_cases hst : job.status = Status.encoding
  · rw [finalizeJob_eq job env hst]
    have hart := finalizeArtifacts_next_frames
      { flushBuffer { job with status := Status.finalizing } with
        stdinAvail := false
        returncode := some env.exitCode } env
    constructor
    · split
      · exact hle
      · split
        · exact hle
        · dsimp only
          rw [hart.1]
          exact hle
    · split
      · exact hfr
      · split
        · exact hfr
        · dsimp only
          rw [hart.2]
          exact hfr
  · unfold finalizeJob
    rw [if_pos hst]
    exact ⟨le_refl _, rfl⟩

/-- `ffmpeg_export_progress` returns the registry unchanged. -/
theorem exportProgress_pure (reg : Registry) (jid : String) :
    (exportProgress reg jid).2 = reg := by
  unfold exportProgress
  split <;> rfl

/-- `ffmpeg_export_download` returns the registry unchanged. -/
theorem exportDownload_pure (reg : Registry) (jid : String) :
    (exportDownload reg jid).2 = reg := by
  unfold exportDownload
  repeat' split
  all_goals rfl

/-- C10: for every compose job and every submitFrame, finalize, cancel or
queryProgress operation, the `next_frame_to_write` counter and the
`framesReceived` counter never decrease. -/
theorem claim_C10_counters_monotone :
    (∀ (job : ComposeJob) (i : Nat) (dat : Bytes),
      job.nextFrameToWrite ≤ (submitFrame job i dat).2.nextFrameToWrite ∧
      job.framesReceived ≤ (submitFrame job i dat).2.framesReceived) ∧
    (∀ (job : ComposeJob) (env : FinalizeEnv),
      job.nextFrameToWrite ≤ (finalizeJob job env).2.nextFrameToWrite ∧
      job.framesReceived ≤ (finalizeJob job env).2.framesReceived) ∧
    (∀ job : ComposeJob,
      job.nextFrameToWrite ≤ (cancelJob job).2.nextFrameToWrite ∧
      job.framesReceived ≤ (cancelJob job).2.framesReceived) ∧
    (∀ (reg : Registry) (jid : String), (exportProgress reg jid).2 = reg) := by
  refine ⟨submitFrame_next_frames, ?_, ?_, exportProgress_pure⟩
  · intro job env
    exact ⟨(finalizeJob_next_frames job env).1,
      le_of_eq (finalizeJob_next_frames job env).2.symm⟩
  · intro job
    exact ⟨le_refl _, le_refl _⟩

/-- C9: creating a compose job with `totalFrames ≤ 0` fails with an error
response and adds no job to the registry, and a finalize call for an
identifier that was never created is rejected with `Invalid jobId` and
mutates no state. -/
theorem claim_C9_invalid_total (reg : Registry) (now : Int) (jobId : String)
    (width height fpsVal : Nat) (totalFrames : Int)
    (codec quality container : String) (vb ab : Option Int)
    (ffmpegOk spawnOk : Bool) (env : FinalizeEnv)
    (htf : totalFrames ≤ 0) :
    (exportCompose reg now jobId width height fpsVal totalFrames codec quality
      container vb ab ffmpegOk spawnOk).1 = ComposeOutcome.invalidTotal ∧
    ∀ jid', alistLookup jid' reg = none →
      alistLookup jid' (exportCompose reg now jobId width height fpsVal
        totalFrames codec quality container vb ab ffmpegOk spawnOk).2 = none ∧
      finalizeApi (exportCompose reg now jobId width height fpsVal totalFrames
          codec quality container vb ab ffmpegOk spawnOk).2 jid' env =
        (FinalizeOutcome.invalidJob,
          (exportCompose reg now jobId width height fpsVal totalFrames codec
            quality container vb ab ffmpegOk spawnOk).2) := by
  have hres : exportCompose reg now jobId width height fpsVal totalFrames codec
      quality container vb ab ffmpegOk spawnOk =
      (ComposeOutcome.invalidTotal, cleanupOldJobs now reg) := by
    unfold exportCompose
    dsimp only
    rw [if_pos htf]
  refine ⟨by rw [hres], ?_⟩
  intro jid' hnone
  have h2 : alistLookup jid' (cleanupOldJobs now reg) = none :=
    alistLookup_filter_none _ hnone
  refine ⟨by rw [hres]; exact h2, ?_⟩
  rw [hres]
  unfold finalizeApi
  rw [h2]

/-- C9 witness at a concrete input: `totalFrames = 0` on an empty registry
is rejected, and finalize on the never-created id is rejected without
touching the registry. -/
theorem claim_C9_witness :
    (exportCompose [] 0 "j9" 1 1 30 0 "avc" "high" "mp4" none none
      true true).1 = ComposeOutcome.invalidTotal ∧
    finalizeApi (exportCompose [] 0 "j9" 1 1 30 0 "avc" "high" "mp4" none none
        true true).2 "j9" ⟨false, 0, 0, []⟩ =
      (FinalizeOutcome.invalidJob,
        (exportCompose [] 0 "j9" 1 1 30 0 "avc" "high" "mp4" none none
          true true).2) :=
  ⟨(claim_C9_invalid_total [] 0 "j9" 1 1 30 0 "avc" "high" "mp4" none none
      true true ⟨false, 0, 0, []⟩ (by decide)).1,
   ((claim_C9_invalid_total [] 0 "j9" 1 1 30 0 "avc" "high" "mp4" none none
      true true ⟨false, 0, 0, []⟩ (by decide)).2 "j9" rfl).2⟩

/-- C8: for every existing job, queryProgress mutates nothing and returns
progress `min(framesReceived / totalFrames, 1)` when `totalFrames > 0`,
`0` when `totalFrames` is not positive, and never more than `1`. -/
theorem claim_C8_progress (reg : Registry) (jid : String) (job : ComposeJob)
    (hfind : alistLookup jid reg = some job) :
    (exportProgress reg jid).2 = reg ∧
    (exportProgress reg jid).1 = ProgressOutcome.info job.status
      (progressOf job) job.framesReceived job.totalFrames job.encoderFps ∧
    (0 < job.totalFrames →
      progressOf job = min ((job.framesReceived : ℚ) / (job.totalFrames : ℚ)) 1) ∧
    (job.totalFrames ≤ 0 → progressOf job = 0) ∧
    progressOf job ≤ 1 := by
  refine ⟨exportProgress_pure reg jid, ?_, ?_, ?_, ?_⟩
  · unfold exportProgress
    rw [hfind]
  · intro hpos
    unfold progressOf
    rw [if_pos hpos]
  · intro hnp
    unfold progressOf
    rw [if_neg (by omega)]
  · unfold progressOf
    split
    · exact min_le_right _ _
    · norm_num

/-- C8 witness at a concrete registry holding one fresh job. -/
theorem claim_C8_witness :
    (exportProgress [("a", newComposeJob "a" 1 1 30 2 "avc" "high" "mp4" none
        none 0)] "a").2 =
      [("a", newComposeJob "a" 1 1 30 2 "avc" "high" "mp4" none none 0)] ∧
    progressOf (newComposeJob "a" 1 1 30 2 "avc" "high" "mp4" none none 0) ≤ 1 :=
  ⟨(claim_C8_progress [("a", newComposeJob "a" 1 1 30 2 "avc" "high" "mp4" none
      none 0)] "a" (newComposeJob "a" 1 1 30 2 "avc" "high" "mp4" none none 0)
      rfl).1,
   (claim_C8_progress [("a", newComposeJob "a" 1 1 30 2 "avc" "high" "mp4" none
      none 0)] "a" (newComposeJob "a" 1 1 30 2 "avc" "high" "mp4" none none 0)
      rfl).2.2.2.2⟩

/-- C4 (amended): for a job in a terminal state, submitFrame, submitAudio,
finalize, queryProgress and download never change its status, but cancel
sets the status of any job to `cancelled` — including from `done` or
`error` — so the cancel endpoint, and only it, moves a job out of a
terminal state. -/
theorem claim_C4_terminal_status (job : ComposeJob)
    (hterm : job.status.isTerminal = true) :
    (∀ (i : Nat) (dat : Bytes), (submitFrame job i dat).2.status = job.status) ∧
    (∀ dat : Bytes, (submitAudioData job dat).2.status = job.status) ∧
    (∀ env : FinalizeEnv, (finalizeJob job env).2.status = job.status) ∧
    (∀ (reg : Registry) (jid : String),
      (exportProgress reg jid).2 = reg ∧ (exportDownload reg jid).2 = reg) ∧
    (cancelJob job).2.status = Status.cancelled := by
  have hne : job.status ≠ Status.encoding := by
    intro he
    rw [he] at hterm
    simp [Status.isTerminal] at hterm
  refine ⟨?_, ?_, ?_, ?_, rfl⟩
  · intro i dat
    unfold submitFrame
    rw [if_pos hne]
  · intro dat
    rfl
  · intro env
    unfold finalizeJob
    rw [if_pos hne]
  · intro reg jid
    exact ⟨exportProgress_pure reg jid, exportDownload_pure reg jid⟩

/-- C4 witness: a cancelled (terminal) job rejects a frame submission with
its status unchanged. -/
theorem claim_C4_witness :
    (submitFrame (cancelJob (newComposeJob "j4" 1 1 30 2 "avc" "high" "mp4"
        none none 0)).2 0 [1, 1, 1, 1]).2.status =
      (cancelJob (newComposeJob "j4" 1 1 30 2 "avc" "high" "mp4" none none
        0)).2.status :=
  (claim_C4_terminal_status _ (by decide)).1 0 [1, 1, 1, 1]

/-- C4 counterexample: a finished job (status `done`, a terminal state) is
moved to status `cancelled` by the cancel endpoint, refuting the claim
that no operation transitions a job out of a terminal state. -/
theorem claim_C4_counterexample :
    (finalizeJob (newComposeJob "j" 1 1 30 1 "avc" "high" "mp4" none none 0)
        ⟨false, 0, 0, []⟩).2.status = Status.done ∧
    (cancelJob (finalizeJob (newComposeJob "j" 1 1 30 1 "avc" "high" "mp4"
        none none 0) ⟨false, 0, 0, []⟩).2).2.status = Status.cancelled :=
  ⟨rfl, rfl⟩

/-- C5 (amended): cancel always returns success, and on a job that is
already `cancelled` with its artifacts already deleted it is a no-op; but
on other terminal jobs (`done`, `error`) it is not a no-op — it rewrites
the status to `cancelled` and deletes the artifacts. -/
theorem claim_C5_cancel_terminal (job : ComposeJob)
    (hc : job.status = Status.cancelled) (ho : job.output = none)
    (ha : job.audioData = none) :
    (∀ j : ComposeJob, (cancelJob j).1 = CancelOutcome.ok) ∧
    cancelJob job = (CancelOutcome.ok, job) := by
  refine ⟨fun j => rfl, ?_⟩
  obtain ⟨f1, f2, f3, f4, f5, f6, f7, f8, f9, f10, f11, f12, f13, f14, f15,
    f16, f17, f18, f19, f20, f21, f22, f23, f24, f25⟩ := job
  have hc2 : f16 = Status.cancelled := hc
  have ho2 : f24 = none := ho
  have ha2 : f25 = none := ha
  subst hc2
  subst ho2
  subst ha2
  rfl

/-- C5 witness: a second cancel on an already-cancelled job returns
success and leaves the job record exactly as it was. -/
theorem claim_C5_witness :
    cancelJob (cancelJob (newComposeJob "j5" 1 1 30 2 "avc" "high" "mp4" none
        none 0)).2 =
      (CancelOutcome.ok, (cancelJob (newComposeJob "j5" 1 1 30 2 "avc" "high"
        "mp4" none none 0)).2) :=
  (claim_C5_cancel_terminal _ rfl rfl rfl).2

/-- C5 counterexample: cancel on a `done` job with an existing output
artifact returns success but is not a no-op — the status flips to
`cancelled` and the output artifact is deleted. -/
theorem claim_C5_counterexample :
    (finalizeJob { newComposeJob "j" 1 1 30 1 "avc" "high" "mp4" none none 0
        with videoOnly := some [9, 9] } ⟨false, 0, 0, []⟩).2.status =
      Status.done ∧
    (finalizeJob { newComposeJob "j" 1 1 30 1 "avc" "high" "mp4" none none 0
        with videoOnly := some [9, 9] } ⟨false, 0, 0, []⟩).2.output =
      some [9, 9] ∧
    (cancelJob (finalizeJob { newComposeJob "j" 1 1 30 1 "avc" "high" "mp4"
        none none 0 with videoOnly := some [9, 9] } ⟨false, 0, 0, []⟩).2).1 =
      CancelOutcome.ok ∧
    (cancelJob (finalizeJob { newComposeJob "j" 1 1 30 1 "avc" "high" "mp4"
        none none 0 with videoOnly := some [9, 9] } ⟨false, 0, 0, []⟩).2).2.status =
      Status.cancelled ∧
    (cancelJob (finalizeJob { newComposeJob "j" 1 1 30 1 "avc" "high" "mp4"
        none none 0 with videoOnly := some [9, 9] } ⟨false, 0, 0, []⟩).2).2.output =
      none :=
  ⟨rfl, rfl, rfl, rfl, rfl⟩

/-- C2 (amended): resubmitting an already-flushed index is accepted and
does not duplicate bytes in the pipeline input — the write log and the
write cursor are unchanged, the stale payload merely parks in the buffer —
but `framesReceived` is incremented on every accepted submission,
including such a resubmission, so it does exceed one count per distinct
index. -/
theorem claim_C2_resubmit_flushed (job : ComposeJob) (i : Nat) (dat : Bytes)
    (hst : job.status = Status.encoding) (hproc : job.hasProcess = true)
    (hstdin : job.stdinAvail = true) (hdat : dat ≠ [])
    (hsz : dat.length = job.width * job.height * 4)
    (hflushed : i < job.nextFrameToWrite)
    (hnogap : alistLookup job.nextFrameToWrite job.frameBuffer = none) :
    submitFrame job i dat =
      (SubmitOutcome.accepted (job.framesReceived + 1),
        { job with
          frameBuffer := alistInsert i dat job.frameBuffer
          framesReceived := job.framesReceived + 1 }) ∧
    (submitFrame job i dat).2.written = job.written ∧
    (submitFrame job i dat).2.nextFrameToWrite = job.nextFrameToWrite ∧
    (submitFrame job i dat).2.framesReceived = job.framesReceived + 1 := by
  have hnone : alistLookup ({ job with
      frameBuffer := alistInsert i dat job.frameBuffer
      framesReceived := job.framesReceived + 1 } : ComposeJob).nextFrameToWrite
      ({ job with
        frameBuffer := alistInsert i dat job.frameBuffer
        framesReceived := job.framesReceived + 1 } : ComposeJob).frameBuffer =
      none := by
    show alistLookup job.nextFrameToWrite (alistInsert i dat job.frameBuffer) =
      none
    rw [alistLookup_insert, if_neg (by omega)]
    exact hnogap
  have hstop := drainBuffer_stop _ hnone
  have hmain : submitFrame job i dat =
      (SubmitOutcome.accepted (job.framesReceived + 1),
        { job with
          frameBuffer := alistInsert i dat job.frameBuffer
          framesReceived := job.framesReceived + 1 }) := by
    rw [submitFrame_accepts job i dat hst hdat hproc hstdin hsz]
    dsimp only
    rw [hstop]
    rfl
  refine ⟨hmain, ?_, ?_, ?_⟩
  · rw [hmain]
  · rw [hmain]
  · rw [hmain]

/-- C2 witness: resubmitting the already-flushed index 0 on a job that
has flushed frame 0 leaves the write log unchanged. -/
theorem claim_C2_witness :
    (submitFrame (submitFrame (newComposeJob "j2" 1 1 30 2 "avc" "high" "mp4"
        none none 0) 0 [5, 5, 5, 5]).2 0 [7, 7, 7, 7]).2.written =
      (submitFrame (newComposeJob "j2" 1 1 30 2 "avc" "high" "mp4" none none 0)
        0 [5, 5, 5, 5]).2.written :=
  (claim_C2_resubmit_flushed
    (submitFrame (newComposeJob "j2" 1 1 30 2 "avc" "high" "mp4" none none 0)
      0 [5, 5, 5, 5]).2 0 [7, 7, 7, 7] (by decide) (by decide) (by decide)
    (by decide) (by decide) (by decide) (by decide)).2.1

/-- C2 counterexample: one distinct index (0) submitted twice yields
`framesReceived = 2`, although the claim's bound of at most one count per
distinct successfully-submitted index would force `framesReceived ≤ 1`;
the write log nevertheless holds frame 0 only once. -/
theorem claim_C2_counterexample :
    (submitFrame (submitFrame (newComposeJob "j" 1 1 30 2 "avc" "high" "mp4"
        none none 0) 0 [5, 5, 5, 5]).2 0 [5, 5, 5, 5]).2.framesReceived = 2 ∧
    (submitFrame (submitFrame (newComposeJob "j" 1 1 30 2 "avc" "high" "mp4"
        none none 0) 0 [5, 5, 5, 5]).2 0 [5, 5, 5, 5]).2.written =
      [(0, [5, 5, 5, 5])] :=
  ⟨rfl, rfl⟩

/-- C3 (amended): after every completed submitFrame whose index is not
already flushed (index ≥ `next_frame_to_write` at submission time) and
after every finalize, every index in the buffer is ≥
`next_frame_to_write`; resubmission of an already-flushed index, however,
leaves that index parked in the buffer below the cursor (see the
counterexample), so the invariant holds only for submission sequences
without such resubmissions. -/
theorem claim_C3_buffer_invariant :
    (∀ (job : ComposeJob) (i : Nat) (dat : Bytes), BufferInv job →
      job.nextFrameToWrite ≤ i → BufferInv (submitFrame job i dat).2) ∧
    (∀ (job : ComposeJob) (env : FinalizeEnv), BufferInv job →
      BufferInv (finalizeJob job env).2) := by
  constructor
  · intro job i dat hinv hile
    unfold submitFrame
    split
    · exact hinv
    split
    · exact hinv
    split
    · exact hinv
    split
    · exact hinv
    dsimp only
    have hinv1 : (alistKeys (alistInsert i dat job.frameBuffer)).Nodup ∧
        ∀ k ∈ alistKeys (alistInsert i dat job.frameBuffer),
          job.nextFrameToWrite ≤ k := by
      refine ⟨nodup_alistKeys_insert i dat hinv.1, ?_⟩
      intro k hk
      rcases (mem_alistKeys_insert k i dat job.frameBuffer).1 hk with rfl | hk'
      · exact hile
      · exact hinv.2 k hk'
    have hd := drainAux_keys_lower (alistInsert i dat job.frameBuffer).length
      { job with
        frameBuffer := alistInsert i dat job.frameBuffer
        framesReceived := job.framesReceived + 1 } hinv1.1 hinv1.2
    split
    · exact hd
    · exact hd
  · intro job env hinv
    by_cases hst : job.status = Status.encoding
    · rw [finalizeJob_eq job env hst]
      have hfl := flushAux_keys_lower
        ({ job with status := Status.finalizing } : ComposeJob).frameBuffer.length
        { job with status := Status.finalizing } hinv.1 hinv.2
      split
      · exact ⟨hfl.1, hfl.2⟩
      · split
        · exact ⟨hfl.1, hfl.2⟩
        · have hartb := finalizeArtifacts_buffer
            { flushBuffer { job with status := Status.finalizing } with
              stdinAvail := false
              returncode := some env.exitCode } env
          have hartn := (finalizeArtifacts_next_frames
            { flushBuffer { job with status := Status.finalizing } with
              stdinAvail := false
              returncode := some env.exitCode } env).1
          constructor
          · dsimp only
            rw [hartb]
            exact hfl.1
          · dsimp only
            rw [hartb, hartn]
            exact hfl.2
    · unfold finalizeJob
      rw [if_pos hst]
      exact hinv

/-- C3 witness: an in-order ahead-of-cursor submission preserves the
buffer shape. -/
theorem claim_C3_witness :
    BufferInv (submitFrame (newComposeJob "j3" 1 1 30 3 "avc" "high" "mp4"
        none none 0) 2 [1, 1, 1, 1]).2 :=
  claim_C3_buffer_invariant.1 (newComposeJob "j3" 1 1 30 3 "avc" "high" "mp4"
    none none 0) 2 [1, 1, 1, 1] ⟨by decide, by decide⟩ (by decide)

/-- C3 counterexample: resubmitting the already-flushed index 0 leaves
index 0 in the buffer while `next_frame_to_write = 1`, so the buffer holds
an index strictly below the cursor after a completed submitFrame —
refuting the claim for sequences that resubmit a flushed index. -/
theorem claim_C3_counterexample :
    (submitFrame (submitFrame (newComposeJob "j" 1 1 30 2 "avc" "high" "mp4"
        none none 0) 0 [5, 5, 5, 5]).2 0 [7, 7, 7, 7]).2.nextFrameToWrite = 1 ∧
    0 ∈ alistKeys (submitFrame (submitFrame (newComposeJob "j" 1 1 30 2 "avc"
        "high" "mp4" none none 0) 0 [5, 5, 5, 5]).2 0
        [7, 7, 7, 7]).2.frameBuffer :=
  ⟨rfl, by decide⟩

/-- C6: when a job with an audio artifact and an existing video-only
artifact finalizes and the mux subprocess exits non-zero, finalize still
succeeds: the final output is exactly the video-only artifact's bytes
(moved into place), the reported size is that artifact's size, and the
job ends in status `done`, not `error`. -/
theorem claim_C6_mux_fallback (job : ComposeJob) (env : FinalizeEnv)
    (a v : Bytes)
    (hst : job.status = Status.encoding) (haud : job.audioData = some a)
    (hvid : job.videoOnly = some v) (hto : env.waitTimedOut = false)
    (hexit : env.exitCode = 0) (hmux : env.muxExitCode ≠ 0) :
    (finalizeJob job env).1 = FinalizeOutcome.ok v.length ∧
    (finalizeJob job env).2.output = some v ∧
    (finalizeJob job env).2.status = Status.done := by
  have haudJ : ({ flushBuffer { job with status := Status.finalizing } with
      stdinAvail := false
      returncode := some env.exitCode } : ComposeJob).audioData = some a :=
    (flushBuffer_fields { job with status := Status.finalizing }).2.1.trans haud
  have hvidJ : ({ flushBuffer { job with status := Status.finalizing } with
      stdinAvail := false
      returncode := some env.exitCode } : ComposeJob).videoOnly = some v :=
    (flushBuffer_fields { job with status := Status.finalizing }).2.2.1.trans hvid
  have hart := finalizeArtifacts_fallback
    { flushBuffer { job with status := Status.finalizing } with
      stdinAvail := false
      returncode := some env.exitCode } env a v haudJ hmux hvidJ
  rw [finalizeJob_eq job env hst]
  rw [if_neg (show ¬ env.waitTimedOut = true from by rw [hto]; simp)]
  rw [if_neg (show ¬ (env.exitCode ≠ 0) from by rw [hexit]; simp)]
  rw [hart]
  exact ⟨rfl, rfl, rfl⟩

/-- C6 witness: a concrete job with audio and a two-byte video-only
artifact, with the mux run exiting 1, still finalizes to `done` with the
video-only bytes as final output. -/
theorem claim_C6_witness :
    (finalizeJob { newComposeJob "j6" 1 1 30 1 "avc" "high" "mp4" none none 0
        with videoOnly := some [1, 2], audioData := some [3] }
      ⟨false, 0, 1, [7]⟩).2.output = some [1, 2] ∧
    (finalizeJob { newComposeJob "j6" 1 1 30 1 "avc" "high" "mp4" none none 0
        with videoOnly := some [1, 2], audioData := some [3] }
      ⟨false, 0, 1, [7]⟩).2.status = Status.done :=
  ⟨(claim_C6_mux_fallback _ _ [3] [1, 2] rfl rfl rfl rfl rfl
      (by decide)).2.1,
   (claim_C6_mux_fallback _ _ [3] [1, 2] rfl rfl rfl rfl rfl
      (by decide)).2.2⟩

/-- C7 (amended): when finalize reaches the artifact-reporting step with
no final output artifact on disk (here: no audio, no video-only artifact,
no pre-existing output), it does NOT report an error — it returns success
with `fileSize = 0` and sets the status to `done`. -/
theorem claim_C7_missing_artifact (job : ComposeJob) (env : FinalizeEnv)
    (hst : job.status = Status.encoding) (hto : env.waitTimedOut = false)
    (hexit : env.exitCode = 0) (haud : job.audioData = none)
    (hvid : job.videoOnly = none) (hout : job.output = none) :
    (finalizeJob job env).1 = FinalizeOutcome.ok 0 ∧
    (finalizeJob job env).2.output = none ∧
    (finalizeJob job env).2.status = Status.done := by
  have haudJ : ({ flushBuffer { job with status := Status.finalizing } with
      stdinAvail := false
      returncode := some env.exitCode } : ComposeJob).audioData = none :=
    (flushBuffer_fields { job with status := Status.finalizing }).2.1.trans haud
  have hvidJ : ({ flushBuffer { job with status := Status.finalizing } with
      stdinAvail := false
      returncode := some env.exitCode } : ComposeJob).videoOnly = none :=
    (flushBuffer_fields { job with status := Status.finalizing }).2.2.1.trans hvid
  have houtJ : ({ flushBuffer { job with status := Status.finalizing } with
      stdinAvail := false
      returncode := some env.exitCode } : ComposeJob).output = none :=
    (flushBuffer_fields { job with status := Status.finalizing }).2.2.2.1.trans
      hout
  have hart := finalizeArtifacts_noop
    { flushBuffer { job with status := Status.finalizing } with
      stdinAvail := false
      returncode := some env.exitCode } env haudJ hvidJ
  rw [finalizeJob_eq job env hst]
  rw [if_neg (show ¬ env.waitTimedOut = true from by rw [hto]; simp)]
  rw [if_neg (show ¬ (env.exitCode ≠ 0) from by rw [hexit]; simp)]
  rw [hart, houtJ]
  exact ⟨rfl, rfl, rfl⟩

/-- C7 witness at a concrete input for the amended behaviour. -/
theorem claim_C7_witness :
    (finalizeJob (newComposeJob "j7w" 2 2 24 5 "hevc" "medium" "webm" none
        none 3) ⟨false, 0, 0, []⟩).1 = FinalizeOutcome.ok 0 ∧
    (finalizeJob (newComposeJob "j7w" 2 2 24 5 "hevc" "medium" "webm" none
        none 3) ⟨false, 0, 0, []⟩).2.status = Status.done :=
  ⟨(claim_C7_missing_artifact _ _ rfl rfl rfl rfl rfl rfl).1,
   (claim_C7_missing_artifact _ _ rfl rfl rfl rfl rfl rfl).2.2⟩

/-- C7 counterexample: finalizing a fresh job whose final artifact does
not exist returns a successful response with `fileSize = 0` and status
`done` — not an error — refuting the claim that a missing final artifact
is reported as an error. -/
theorem claim_C7_counterexample :
    (finalizeJob (newComposeJob "j7" 1 1 30 1 "avc" "high" "mp4" none none 0)
        ⟨false, 0, 0, []⟩).1 = FinalizeOutcome.ok 0 ∧
    (finalizeJob (newComposeJob "j7" 1 1 30 1 "avc" "high" "mp4" none none 0)
        ⟨false, 0, 0, []⟩).2.output = none ∧
    (finalizeJob (newComposeJob "j7" 1 1 30 1 "avc" "high" "mp4" none none 0)
        ⟨false, 0, 0, []⟩).2.status = Status.done :=
  ⟨rfl, rfl, rfl⟩

/-- C1: for every freshly created compose job and every sequence of
frame submissions whose indices cover `0..N-1` in any permutation, each
with a correctly sized payload, every submission is accepted and the
pipeline input receives exactly the frames `0, 1, ..., N-1` in strictly
increasing index order — the write log equals the payloads sorted by
index, and its byte concatenation equals the concatenation of the
payloads sorted by index, regardless of arrival order. -/
theorem claim_C1_ordered_writes (jobId : String) (w h fpsVal : Nat) (N : Nat)
    (codec quality container : String) (vb ab : Option Int) (t : Int)
    (P : Nat → Bytes) (order : List Nat)
    (hperm : order.Perm (List.range N))
    (hsz : ∀ i ∈ order, (P i).length = w * h * 4)
    (hwh : 0 < w * h) :
    (∀ o ∈ (submitRun P order (newComposeJob jobId w h fpsVal (N : Int) codec
      quality container vb ab t)).1, ∃ n, o = SubmitOutcome.accepted n) ∧
    (submitRun P order (newComposeJob jobId w h fpsVal (N : Int) codec quality
      container vb ab t)).2.written = (List.range N).map (fun i => (i, P i)) ∧
    ((submitRun P order (newComposeJob jobId w h fpsVal (N : Int) codec quality
      container vb ab t)).2.written.map Prod.snd).flatten =
      ((List.range N).map P).flatten := by
  have inv0 : SubmitInv P w h [] (newComposeJob jobId w h fpsVal (N : Int)
      codec quality container vb ab t) := by
    refine ⟨rfl, rfl, rfl, rfl, rfl, rfl, rfl, ?_, ?_, ?_, ?_, ?_⟩
    · intro j hj
      exact absurd hj (Nat.not_lt_zero j)
    · exact List.not_mem_nil _
    · exact List.nodup_nil
    · intro k
      simp [newComposeJob, alistLookup]
    · simp [newComposeJob]
  have hnd : order.Nodup := hperm.nodup_iff.2 (List.nodup_range N)
  have hmemOrd : ∀ x, x ∈ order ↔ x < N := by
    intro x
    rw [hperm.mem_iff, List.mem_range]
  obtain ⟨hacc, S', hmem, hlen, hinv⟩ := submitRun_inv P w h hwh order []
    (newComposeJob jobId w h fpsVal (N : Int) codec quality container vb ab t)
    inv0 (by intro i hi; simp) hnd hsz
  have hmemS : ∀ x, x ∈ S' ↔ x < N := by
    intro x
    rw [hmem x, hmemOrd x]
    simp
  have hub : (submitRun P order (newComposeJob jobId w h fpsVal (N : Int)
      codec quality container vb ab t)).2.nextFrameToWrite ≤ N := by
    by_contra hgt
    push_neg at hgt
    exact absurd ((hmemS N).1 (hinv.lower N hgt)) (lt_irrefl N)
  have hlb : N ≤ (submitRun P order (newComposeJob jobId w h fpsVal (N : Int)
      codec quality container vb ab t)).2.nextFrameToWrite := by
    by_contra hlt
    push_neg at hlt
    exact hinv.gap ((hmemS _).2 hlt)
  have hwr : (submitRun P order (newComposeJob jobId w h fpsVal (N : Int)
      codec quality container vb ab t)).2.written =
      (List.range N).map (fun i => (i, P i)) := by
    rw [hinv.writtenEq, le_antisymm hub hlb]
  refine ⟨hacc, hwr, ?_⟩
  rw [hwr, List.map_map]
  rfl

/-- C1 witness: frames 2, 0, 1 of a 3-frame 1×1 job, submitted out of
order, are all accepted and reach the pipeline input as frames 0, 1, 2. -/
theorem claim_C1_witness :
    (submitRun (fun i => [i, i, i, i]) [2, 0, 1]
      (newComposeJob "w" 1 1 30 (3 : Int) "avc" "high" "mp4" none
        none 0)).2.written =
      (List.range 3).map (fun i => (i, [i, i, i, i])) :=
  (claim_C1_ordered_writes "w" 1 1 30 3 "avc" "high" "mp4" none none 0
    (fun i => [i, i, i, i]) [2, 0, 1] (by decide) (by decide) (by decide)).2.1
